import Mathlib

/-!
Verification development for the verax cost-based query optimizer.

The definitions below are a shallow embedding of the optimizer sources:

* `Cost.cpp` (operator cost model: aggregation, filter, limit, hash probe
  constants);
* `ToVelox.cpp` (the physical plan emitter: the table scan case of
  `makeFragment`, `filterUpdated`, root limit and offset emission);
* `LogicalPlanNode.cpp` (unique output column names of logical plan nodes);
* `Plan.h` (`PlanStateSaver`, the scoped restore of search state);
* `Subfields.cpp` (subfield access marking, `stepToLogicalPlanGetter`).

C++ `float` arithmetic of the cost model is embedded as exact rational
arithmetic, and the input cardinality that appears as an exponent is taken
at natural number values, so that powers are monoid powers.  Fallible code
is embedded in `Except`/`Option`; pointer identity of arena objects is
embedded as explicit integer ids.
-/

namespace Verax

/-- Per-operator cost record, mirroring the `Cost` struct used throughout
`Cost.cpp` and `Plan.h` (fields visible from their uses: `unitCost`,
`setupCost`, `fanout`, `totalBytes`, `transferBytes`, `inputCardinality`).
All fields are value-initialized to zero. -/
structure Cost where
  unitCost : ℚ := 0
  setupCost : ℚ := 0
  fanout : ℚ := 0
  totalBytes : ℚ := 0
  transferBytes : ℚ := 0
  inputCardinality : ℚ := 0
  deriving Repr, DecidableEq

/- Cost constants of `struct Costs` in `Cost.cpp`. -/
namespace Costs

def kKeyCompareCost : ℚ := 6

def kArrayProbeCost : ℚ := 2

def kSmallHashCost : ℚ := 10

def kLargeHashCost : ℚ := 40

def kColumnRowCost : ℚ := 5

def kColumnByteCost : ℚ := 0.1

def kHashColumnCost : ℚ := 0.5

def kHashExtractColumnCost : ℚ := 0.5

def kMinimumFilterCost : ℚ := 2

def byteShuffleCost : ℚ := 12

/-- Embeds `Costs::hashProbeCost` in `Cost.cpp`: array probe below 10^4 entries,
small hash below 5*10^5, large hash above. -/
def hashProbeCost (cardinality : ℚ) : ℚ :=
  if cardinality < 10000 then kArrayProbeCost
  else if cardinality < 500000 then kSmallHashCost
  else kLargeHashCost

end Costs

/-- Embeds `Aggregation::setCost` in `Cost.cpp`.  `grouping` is the list of the
per-grouping-key distinct value counts (`key->value().cardinality`),
`rowBytes` is `byteSize(grouping) + byteSize(aggregates)`, and `n` is the
input cardinality (`cost_.inputCardinality`, set from the accumulated plan
state fanout by `RelationOp::setCost`). -/
def aggregationSetCost (grouping : List ℚ) (rowBytes : ℚ) (n : ℕ) : Cost :=
  let cardinality : ℚ := grouping.foldl (· * ·) 1
  let nOut : ℚ := cardinality - cardinality * (1 - 1 / cardinality) ^ n
  { inputCardinality := (n : ℚ)
    fanout := nOut / (n : ℚ)
    unitCost := (grouping.length : ℚ) * Costs.hashProbeCost nOut
    totalBytes := nOut * rowBytes }

/-- Embeds `Filter::setCost` in `Cost.cpp`: the per-row cost is the number of
conjunct expressions times the minimum filter cost, and the default fanout
is `0.8 ^ numExprs`.  The previous cost record is otherwise kept. -/
def filterSetCost (numExprs : ℕ) (cost : Cost) : Cost :=
  { cost with
    unitCost := Costs.kMinimumFilterCost * (numExprs : ℚ)
    fanout := (0.8 : ℚ) ^ numExprs }

/-- Embeds `Limit::setCost` in `Cost.cpp`: unit cost `0.01`; fanout `1` when the
input cardinality (read from the plan state cost) does not exceed the
limit, otherwise `limit / inputCardinality`. -/
def limitSetCost (limit : ℚ) (stateInputCardinality : ℚ) (cost : Cost) :
    Cost :=
  let cost := { cost with unitCost := (0.01 : ℚ) }
  if stateInputCardinality ≤ limit then
    { cost with fanout := 1 }
  else
    { cost with fanout := limit / stateInputCardinality }

/-- The output cardinality estimate of an aggregation, as a standalone
abbreviation: `d - d * (1 - 1/d)^n` for `d` the product of the per-key
distinct counts. -/
def aggregationOutputCardinality (grouping : List ℚ) (n : ℕ) : ℚ :=
  let d : ℚ := grouping.foldl (· * ·) 1
  d - d * (1 - 1 / d) ^ n

/-- C3, counterexample.  The claim states that `setCost` sets
`unit_cost = numKeys * probe_cost(d)` where `d` is the product of the
per-key distinct counts.  The code instead charges the probe cost of the
estimated output cardinality `nOut = d - d*(1-1/d)^n`.  With one grouping
key of 20000 distinct values and input cardinality 1, the output estimate
is 1 row, so the code charges the array probe cost 2, while the claimed
formula gives the small hash cost 10. -/
theorem c3_unitCost_counterexample :
    (aggregationSetCost [20000] 7 1).unitCost = 2 ∧
    (([20000] : List ℚ).length : ℚ) *
        Costs.hashProbeCost (([20000] : List ℚ).foldl (· * ·) 1) = 10 ∧
    (aggregationSetCost [20000] 7 1).unitCost ≠
      (([20000] : List ℚ).length : ℚ) *
        Costs.hashProbeCost (([20000] : List ℚ).foldl (· * ·) 1) := by
  refine ⟨?_, ?_, ?_⟩ <;>
    norm_num [aggregationSetCost, Costs.hashProbeCost, Costs.kArrayProbeCost,
      Costs.kSmallHashCost]

/-- C3, amended.  For input cardinality `n > 0` and positive per-key
distinct counts, `Aggregation::setCost` sets the estimated output
cardinality (fanout times input cardinality) to `d - d*(1-1/d)^n` with `d`
the product of the per-key distinct counts, sets the unit cost to the
number of keys times the hash probe cost of that output estimate (not of
`d`), and sets the total bytes to the output estimate times the row byte
size; with zero grouping keys the output estimate is 1 and the fanout is
`1/n`. -/
theorem c3_aggregation_setCost_amended (grouping : List ℚ) (rowBytes : ℚ)
    (n : ℕ) (hn : 0 < n) :
    (aggregationSetCost grouping rowBytes n).fanout * (n : ℚ) =
        aggregationOutputCardinality grouping n ∧
    (aggregationSetCost grouping rowBytes n).unitCost =
        (grouping.length : ℚ) *
          Costs.hashProbeCost (aggregationOutputCardinality grouping n) ∧
    (aggregationSetCost grouping rowBytes n).totalBytes =
        aggregationOutputCardinality grouping n * rowBytes ∧
    (grouping = [] → aggregationOutputCardinality grouping n = 1 ∧
      (aggregationSetCost grouping rowBytes n).fanout = 1 / (n : ℚ)) := by
  have hnq : ((n : ℚ)) ≠ 0 := by exact_mod_cast hn.ne'
  refine ⟨?_, rfl, rfl, ?_⟩
  · simp only [aggregationSetCost, aggregationOutputCardinality]
    field_simp
  · rintro rfl
    have hout : aggregationOutputCardinality [] n = 1 := by
      simp [aggregationOutputCardinality, zero_pow hn.ne']
    refine ⟨hout, ?_⟩
    have : aggregationSetCost [] rowBytes n =
        { inputCardinality := (n : ℚ), fanout := 1 / (n : ℚ),
          unitCost := 0 * Costs.hashProbeCost 1, totalBytes := 1 * rowBytes } := by
      simp [aggregationSetCost, zero_pow hn.ne']
    simp [this]

/-- C3, witness for the amended theorem at one grouping key with 3 distinct
values, row byte size 11 and input cardinality 2, and at the zero-key case
with input cardinality 4. -/
theorem c3_aggregation_setCost_witness :
    ((aggregationSetCost [3] 11 2).fanout * ((2 : ℕ) : ℚ) =
        aggregationOutputCardinality [3] 2 ∧
      (aggregationSetCost [3] 11 2).unitCost =
        (([3] : List ℚ).length : ℚ) *
          Costs.hashProbeCost (aggregationOutputCardinality [3] 2) ∧
      (aggregationSetCost [3] 11 2).totalBytes =
        aggregationOutputCardinality [3] 2 * 11 ∧
      (([3] : List ℚ) = [] → aggregationOutputCardinality [3] 2 = 1 ∧
        (aggregationSetCost [3] 11 2).fanout = 1 / ((2 : ℕ) : ℚ))) ∧
    ((aggregationSetCost [] 5 4).fanout * ((4 : ℕ) : ℚ) =
        aggregationOutputCardinality [] 4 ∧
      (aggregationSetCost [] 5 4).unitCost =
        (([] : List ℚ).length : ℚ) *
          Costs.hashProbeCost (aggregationOutputCardinality [] 4) ∧
      (aggregationSetCost [] 5 4).totalBytes =
        aggregationOutputCardinality [] 4 * 5 ∧
      (([] : List ℚ) = [] → aggregationOutputCardinality [] 4 = 1 ∧
        (aggregationSetCost [] 5 4).fanout = 1 / ((4 : ℕ) : ℚ))) :=
  ⟨c3_aggregation_setCost_amended [3] 11 2 (by norm_num),
    c3_aggregation_setCost_amended [] 5 4 (by norm_num)⟩

/-- C4.  `Filter::setCost` sets the unit cost to the number of conjunct
expressions times the baseline filter cost constant (which equals 2), and
the default fanout to `0.8 ^ numExprs`; all other cost fields are left
as they were. -/
theorem c4_filter_setCost (numExprs : ℕ) (cost : Cost) :
    (filterSetCost numExprs cost).unitCost =
        Costs.kMinimumFilterCost * (numExprs : ℚ) ∧
    Costs.kMinimumFilterCost = 2 ∧
    (filterSetCost numExprs cost).fanout = (0.8 : ℚ) ^ numExprs ∧
    (filterSetCost numExprs cost).inputCardinality = cost.inputCardinality ∧
    (filterSetCost numExprs cost).totalBytes = cost.totalBytes := by
  exact ⟨rfl, rfl, rfl, rfl, rfl⟩

/-- C5.  `Limit::setCost` sets a unit cost of `0.01` (approximately zero)
and, for positive input cardinality `n` and nonnegative limit, a fanout of
`min 1 (limit / n)`: `1` when `n ≤ limit` and `limit / n` otherwise. -/
theorem c5_limit_setCost (limit n : ℚ) (cost : Cost) (hn : 0 < n)
    (_hl : 0 ≤ limit) :
    (limitSetCost limit n cost).unitCost = 0.01 ∧
    (limitSetCost limit n cost).fanout =
      (if n ≤ limit then 1 else limit / n) ∧
    (limitSetCost limit n cost).fanout = min 1 (limit / n) := by
  refine ⟨?_, ?_, ?_⟩
  · by_cases h : n ≤ limit <;> simp [limitSetCost, h]
  · by_cases h : n ≤ limit <;> simp [limitSetCost, h]
  · by_cases h : n ≤ limit
    · have h1 : (1 : ℚ) ≤ limit / n := (one_le_div hn).mpr h
      simp [limitSetCost, h, min_eq_left h1]
    · have h1 : limit / n < 1 := by
        rw [div_lt_one hn]
        exact lt_of_not_ge h
      simp [limitSetCost, h, min_eq_right h1.le]

/-- C5, witness at limit 10 and input cardinality 25. -/
theorem c5_limit_setCost_witness :
    (limitSetCost 10 25 {}).unitCost = 0.01 ∧
    (limitSetCost 10 25 {}).fanout =
      (if (25 : ℚ) ≤ 10 then 1 else 10 / 25) ∧
    (limitSetCost 10 25 {}).fanout = min 1 ((10 : ℚ) / 25) :=
  c5_limit_setCost 10 25 {} (by norm_num) (by norm_num)

/-! ## Root limit and offset emission (C2) -/

/-- Largest value of a signed 64 bit integer. -/
def int64Max : ℤ := 2 ^ 63 - 1

/-- Modelled from the spec: saturating signed 64 bit addition used for the
partial limit; a sum exceeding the int64 maximum saturates at the int64
maximum. -/
def satAddInt64 (a b : ℤ) : ℤ :=
  if int64Max < a + b then int64Max else a + b

/-- The limit operators emitted for a root limit and offset: a partial
limit and a final limit, each an (offset, limit) pair. -/
structure RootLimitEmission where
  partOffset : ℤ
  partLimit : ℤ
  finalOffset : ℤ
  finalLimit : ℤ
  deriving Repr, DecidableEq

/-- Modelled from the spec: the root limit emission of the physical plan
emitter.  The function that emits the partial and final limit operators is
absent from the sources here; only its tests (`HiveLimitQueriesTest`) and
the `toVeloxLimit_` and `toVeloxOffset_` declarations in `Plan.h` are
present.  Per the spec, the partial limit uses `offset + limit` saturated
at int64 max with offset zero, and the final limit uses the original
offset and limit. -/
def emitRootLimit (offset limit : ℤ) : RootLimitEmission :=
  { partOffset := 0
    partLimit := satAddInt64 offset limit
    finalOffset := offset
    finalLimit := limit }

/-- C2.  For a root limit `L` and offset `O` (both nonnegative, as int64
values are), the emitted partial limit uses offset zero and the saturating
sum `O + L` (equal to `O + L` when in range and to int64 max when the sum
overflows), while the final limit uses the original `O` and `L`
unchanged. -/
theorem c2_root_limit_saturation (offset limit : ℤ) (_ho : 0 ≤ offset)
    (_hl : 0 ≤ limit) :
    (emitRootLimit offset limit).partOffset = 0 ∧
    (emitRootLimit offset limit).partLimit = min (offset + limit) int64Max ∧
    (int64Max < offset + limit →
      (emitRootLimit offset limit).partLimit = int64Max) ∧
    (offset + limit ≤ int64Max →
      (emitRootLimit offset limit).partLimit = offset + limit) ∧
    (emitRootLimit offset limit).finalOffset = offset ∧
    (emitRootLimit offset limit).finalLimit = limit := by
  refine ⟨rfl, ?_, ?_, ?_, rfl, rfl⟩
  · by_cases h : int64Max < offset + limit
    · simp [emitRootLimit, satAddInt64, h, min_eq_right h.le]
    · simp [emitRootLimit, satAddInt64, h, min_eq_left (le_of_not_gt h)]
  · intro h
    simp [emitRootLimit, satAddInt64, h]
  · intro h
    simp [emitRootLimit, satAddInt64, not_lt.mpr h]

/-- C2, witness: at offset 5 and limit 10 the partial limit is (0, 15) and
the final limit is (5, 10); at offset `int64Max - 5` and limit 100 the
partial limit saturates at int64 max. -/
theorem c2_root_limit_saturation_witness :
    ((emitRootLimit 5 10).partOffset = 0 ∧
      (emitRootLimit 5 10).partLimit = min (5 + 10) int64Max ∧
      (int64Max < 5 + 10 → (emitRootLimit 5 10).partLimit = int64Max) ∧
      (5 + 10 ≤ int64Max → (emitRootLimit 5 10).partLimit = 5 + 10) ∧
      (emitRootLimit 5 10).finalOffset = 5 ∧
      (emitRootLimit 5 10).finalLimit = 10) ∧
    (emitRootLimit (int64Max - 5) 100).partLimit = int64Max := by
  constructor
  · exact c2_root_limit_saturation 5 10 (by norm_num) (by norm_num)
  · exact (c2_root_limit_saturation (int64Max - 5) 100
      (by norm_num [int64Max]) (by norm_num)).2.2.1
      (by norm_num [int64Max])

/-! ## The table scan case of the physical plan emitter (C1) -/

/-- Physical plan node shapes producible by the table scan case of
`Optimization::makeFragment` in `ToVelox.cpp`: a table scan carrying the
connector table handle and the output column names, optionally wrapped by
the subfield reconstruction projection, or a filter node (what the claim
expects above a scan with rejected filters). -/
inductive VNode where
  | tableScan (handle : ℕ) (outputNames : List String)
  | filterNode (conjuncts : List ℕ) (input : VNode)
  | subfieldProject (input : VNode)
  deriving Repr, DecidableEq

/-- Input of the table scan case of `makeFragment`: the stored
`leafHandles_` entry for the base table (pairing the connector table
handle with the rejected filters kept by `setLeafHandle` in
`filterUpdated`), the entry `filterUpdated` would store when none is
present yet (the result of `createTableHandle`), the scan output names,
and whether subfield pushdown applies to this scan. -/
structure ScanCaseInput where
  storedHandle : Option (ℕ × List ℕ)
  recomputedHandle : ℕ × List ℕ
  outputNames : List String
  hasSubfieldPushdown : Bool

/-- The `leafHandle` pair in effect for the scan: the stored entry if
present, else the one `filterUpdated` computes and stores on demand. -/
def effectiveHandle (inp : ScanCaseInput) : ℕ × List ℕ :=
  match inp.storedHandle with
  | some p => p
  | none => inp.recomputedHandle

/-- The `RelType::kTableScan` case of `Optimization::makeFragment` in
`ToVelox.cpp` (lines 804-848).  On a missing leaf handle it recomputes via
`filterUpdated`; it builds the scan node with the connector table handle,
then `VELOX_CHECK`s that the rejected filter list is empty (raising
`Expecting no rejected filters` otherwise), records the scan in the
fragment scan list, and wraps the scan in the subfield reconstruction
projection when subfield pushdown applies.  Returns the produced node and
the fragment scan list. -/
def makeFragmentTableScan (inp : ScanCaseInput) :
    Except String (VNode × List VNode) :=
  let handlePair := effectiveHandle inp
  let scanNode := VNode.tableScan handlePair.1 inp.outputNames
  if handlePair.2 = [] then
    if inp.hasSubfieldPushdown then
      .ok (VNode.subfieldProject scanNode, [scanNode])
    else
      .ok (scanNode, [scanNode])
  else
    .error "Expecting no rejected filters"

/-- C1, counterexample.  The claim states that a non-empty rejected filter
list from `create_table_handle` is not an error: the emitter would attach
the handle and wrap the rejected filters in a filter node above the scan.
With a stored handle 7 and one rejected filter, the emitter instead fails
with `Expecting no rejected filters`. -/
theorem c1_rejected_filters_counterexample :
    makeFragmentTableScan
      { storedHandle := some (7, [42]), recomputedHandle := (7, []),
        outputNames := ["c0"], hasSubfieldPushdown := false } =
      .error "Expecting no rejected filters" := by
  rfl

/-- C1, amended.  For every table scan emitted into a physical fragment,
if the rejected filter list attached to the leaf handle is empty, the
emitter attaches the connector table handle to the scan and emits the scan
(with no filter node above it); if the rejected filter list is non-empty,
the emitter fails with the error `Expecting no rejected filters` instead
of wrapping the rejected filters in a filter above the scan. -/
theorem c1_rejected_filters_amended (inp : ScanCaseInput) (handle : ℕ)
    (rejected : List ℕ) (h : effectiveHandle inp = (handle, rejected)) :
    (rejected = [] →
      makeFragmentTableScan inp =
        .ok (if inp.hasSubfieldPushdown then
              VNode.subfieldProject (VNode.tableScan handle inp.outputNames)
            else VNode.tableScan handle inp.outputNames,
          [VNode.tableScan handle inp.outputNames])) ∧
    (rejected ≠ [] →
      makeFragmentTableScan inp = .error "Expecting no rejected filters") := by
  constructor
  · rintro rfl
    by_cases hp : inp.hasSubfieldPushdown <;>
      simp [makeFragmentTableScan, h, hp]
  · intro hne
    simp [makeFragmentTableScan, h, hne]

/-- C1, witness: one scan with an empty rejected list is emitted as a bare
scan carrying handle 3; one scan with a non-empty rejected list fails. -/
theorem c1_rejected_filters_witness :
    makeFragmentTableScan
      { storedHandle := none, recomputedHandle := (3, []),
        outputNames := ["a", "b"], hasSubfieldPushdown := false } =
      .ok (VNode.tableScan 3 ["a", "b"], [VNode.tableScan 3 ["a", "b"]]) ∧
    makeFragmentTableScan
      { storedHandle := some (9, [1, 2]), recomputedHandle := (9, []),
        outputNames := ["a"], hasSubfieldPushdown := true } =
      .error "Expecting no rejected filters" := by
  constructor
  · have h := (c1_rejected_filters_amended
      { storedHandle := none, recomputedHandle := (3, []),
        outputNames := ["a", "b"], hasSubfieldPushdown := false }
      3 [] rfl).1 rfl
    simpa using h
  · exact (c1_rejected_filters_amended
      { storedHandle := some (9, [1, 2]), recomputedHandle := (9, []),
        outputNames := ["a"], hasSubfieldPushdown := true }
      9 [1, 2] rfl).2 (by simp)

/-! ## Aggregate and mask deduplication (C6) -/

/-- Scalar expression skeleton for aggregate arguments and filter masks.
Expressions are deduplicated structurally by the query graph builder, so
structural equality stands in for the interning of the arena. -/
inductive AExpr where
  | col (name : String)
  | intLit (n : ℤ)
  | cmp (op : String) (lhs rhs : AExpr)
  deriving Repr, DecidableEq

/-- An aggregate call: function name, arguments and the optional filter
mask expression. -/
structure AggCall where
  func : String
  args : List AExpr
  filter : Option AExpr
  deriving Repr, DecidableEq

/-- Order-preserving deduplication keeping the first occurrence, as the
interning arena does: a later structurally equal object resolves to the
id of the first. -/
def dedupKeepFirst {α : Type} [DecidableEq α] (xs : List α) : List α :=
  xs.foldl (fun acc x => if x ∈ acc then acc else acc ++ [x]) []

/-- Result of translating an Aggregate node: the distinct mask expressions
to evaluate below the aggregation, the distinct aggregates of the
aggregation node, and the final projection as a map from each requested
output name to the index of the aggregate producing it. -/
structure TranslatedAggregation where
  masks : List AExpr
  aggregates : List AggCall
  outputMap : List (String × ℕ)
  deriving Repr, DecidableEq

/-- Modelled from the spec: the translation of an Aggregate node by the
query graph builder (absent from the sources here; only its test,
`AggregationPlanTest.dedupMask`, is present).  Expressions are
deduplicated within a query, so structurally equal aggregates collapse to
one, each distinct mask is projected once below the aggregation, and the
final projection maps every requested output name to the first
structurally equal aggregate. -/
def translateAggregation (aggs : List (String × AggCall)) :
    TranslatedAggregation :=
  let distinct := dedupKeepFirst (aggs.map Prod.snd)
  { masks := dedupKeepFirst (distinct.filterMap AggCall.filter)
    aggregates := distinct
    outputMap := aggs.map fun p => (p.1, distinct.indexOf p.2) }

/-- The mask `b > 0` of the C6 query. -/
def c6MaskGt : AExpr := .cmp "gt" (.col "b") (.intLit 0)

/-- The mask `b < 0` of the C6 query. -/
def c6MaskLt : AExpr := .cmp "lt" (.col "b") (.intLit 0)

/-- C6.  For `sum(a) FILTER (b>0) AS s1, sum(a) FILTER (b<0) AS s2,
sum(a) FILTER (b>0) AS s3`, the translated aggregation evaluates the mask
`b>0` exactly once (the distinct mask list is `[b>0, b<0]`), contains only
two aggregates, and the final projection maps `s3` to the first
aggregate, the one named `s1`. -/
theorem c6_dedup_mask :
    (translateAggregation
        [("s1", ⟨"sum", [AExpr.col "a"], some c6MaskGt⟩),
          ("s2", ⟨"sum", [AExpr.col "a"], some c6MaskLt⟩),
          ("s3", ⟨"sum", [AExpr.col "a"], some c6MaskGt⟩)]).masks =
      [c6MaskGt, c6MaskLt] ∧
    (translateAggregation
        [("s1", ⟨"sum", [AExpr.col "a"], some c6MaskGt⟩),
          ("s2", ⟨"sum", [AExpr.col "a"], some c6MaskLt⟩),
          ("s3", ⟨"sum", [AExpr.col "a"], some c6MaskGt⟩)]).aggregates =
      [⟨"sum", [AExpr.col "a"], some c6MaskGt⟩,
        ⟨"sum", [AExpr.col "a"], some c6MaskLt⟩] ∧
    (translateAggregation
        [("s1", ⟨"sum", [AExpr.col "a"], some c6MaskGt⟩),
          ("s2", ⟨"sum", [AExpr.col "a"], some c6MaskLt⟩),
          ("s3", ⟨"sum", [AExpr.col "a"], some c6MaskGt⟩)]).outputMap =
      [("s1", 0), ("s2", 1), ("s3", 0)] := by
  decide

/-! ## Unique output column names of logical plan nodes (C7) -/

/-- Velox types, as far as the logical plan node constructors inspect
them. -/
inductive LTy where
  | rowT (fields : List (String × LTy))
  | arrayT (elem : LTy)
  | mapT (key value : LTy)
  | bigintT
  | integerT
  | smallintT
  | tinyintT
  | varcharT
  | booleanT
  | doubleT
  deriving Repr

/-- A row type as a list of named children. -/
abbrev RowTy := List (String × LTy)

mutual

/-- Embeds `Type::equivalent`: equality of types up to row child names. -/
def typeEquivalent : LTy → LTy → Bool
  | .rowT fs, .rowT gs => rowFieldsEquivalent fs gs
  | .arrayT a, .arrayT b => typeEquivalent a b
  | .mapT k v, .mapT k2 v2 => typeEquivalent k k2 && typeEquivalent v v2
  | .bigintT, .bigintT => true
  | .integerT, .integerT => true
  | .smallintT, .smallintT => true
  | .tinyintT, .tinyintT => true
  | .varcharT, .varcharT => true
  | .booleanT, .booleanT => true
  | .doubleT, .doubleT => true
  | _, _ => false

/-- Children of two row types are pairwise equivalent, names ignored. -/
def rowFieldsEquivalent : List (String × LTy) → List (String × LTy) → Bool
  | [], [] => true
  | (_, t) :: fs, (_, u) :: gs => typeEquivalent t u && rowFieldsEquivalent fs gs
  | _, _ => false

end

/-- Embeds `UniqueNameChecker::add` in `LogicalPlanNode.cpp`: a name must be
non-empty (`VELOX_USER_CHECK`) and not seen before. -/
def uniqueNameAdd (seen : List String) (name : String) :
    Except String (List String) :=
  if name = "" then .error "Name must not be empty"
  else if name ∈ seen then .error ("Duplicate name: " ++ name)
  else .ok (name :: seen)

/-- Embeds `UniqueNameChecker::addAll`: fold `add` over the names. -/
def uniqueNameAddAll (seen : List String) :
    List String → Except String (List String)
  | [] => .ok seen
  | n :: rest =>
    match uniqueNameAdd seen n with
    | .ok seen1 => uniqueNameAddAll seen1 rest
    | .error e => .error e

/-- Embeds `UniqueNameChecker::check`: check the names starting from an empty
seen set.  Every failure is a `VELOX_USER_CHECK`, that is a user
(InvalidInput) error. -/
def uniqueNameCheck (names : List String) : Except String Unit :=
  match uniqueNameAddAll [] names with
  | .ok _ => .ok ()
  | .error e => .error e

/-- The invariant checked by `UniqueNameChecker`: names are pairwise
distinct and non-empty. -/
def ValidNames (names : List String) : Prop :=
  names.Nodup ∧ ∀ n ∈ names, n ≠ ""

instance (names : List String) : Decidable (ValidNames names) := by
  unfold ValidNames
  infer_instance

theorem uniqueNameAddAll_ok (seen names : List String) (out : List String)
    (h : uniqueNameAddAll seen names = .ok out) :
    names.Nodup ∧ ∀ n ∈ names, n ≠ "" ∧ n ∉ seen := by
  induction names generalizing seen with
  | nil => simp
  | cons n rest ih =>
    rw [uniqueNameAddAll] at h
    cases ha : uniqueNameAdd seen n with
    | error e => rw [ha] at h; exact absurd h (by simp)
    | ok seen1 =>
      rw [ha] at h
      unfold uniqueNameAdd at ha
      by_cases h0 : n = ""
      · simp [h0] at ha
      · by_cases h1 : n ∈ seen
        · simp [h0, h1] at ha
        · simp only [h0, h1, if_false, Except.ok.injEq] at ha
          obtain ⟨hnd, hrest⟩ := ih seen1 h
          subst ha
          refine ⟨List.nodup_cons.mpr ⟨?_, hnd⟩, ?_⟩
          · intro hmem
            exact ((hrest n hmem).2) (List.mem_cons_self n seen)
          · intro m hm
            rcases List.mem_cons.mp hm with rfl | hm2
            · exact ⟨h0, h1⟩
            · have := hrest m hm2
              exact ⟨this.1, fun hs => this.2 (List.mem_cons_of_mem n hs)⟩

/-- If `UniqueNameChecker::check` passes, the names are pairwise distinct
and non-empty. -/
theorem uniqueNameCheck_ok (names : List String)
    (h : uniqueNameCheck names = .ok ()) : ValidNames names := by
  unfold uniqueNameCheck at h
  cases ha : uniqueNameAddAll [] names with
  | error e => rw [ha] at h; exact absurd h (by simp)
  | ok out =>
    have := uniqueNameAddAll_ok [] names out ha
    exact ⟨this.1, fun n hn => (this.2 n hn).1⟩

/-- The validation in the `ValuesNode` constructor: empty rows force a
zero-size row type, the output names are checked unique, and each row must
have a type equivalent to the row type. -/
def valuesNodeMake (rowType : RowTy) (rowTypes : List LTy) :
    Except String RowTy :=
  if rowTypes.isEmpty ∧ rowType.length ≠ 0 then .error "Expected zero size"
  else
    match uniqueNameCheck (rowType.map Prod.fst) with
    | .error e => .error e
    | .ok _ =>
      if rowTypes.all fun t => typeEquivalent (.rowT rowType) t then
        .ok rowType
      else .error "Incompatible types"

/-- Embeds `ProjectNode::makeOutputType`: as many names as expressions, unique
names, output children typed by the expressions. -/
def projectMakeOutputType (names : List String) (exprTypes : List LTy) :
    Except String RowTy :=
  if names.length ≠ exprTypes.length then .error "Size mismatch"
  else
    match uniqueNameCheck names with
    | .error e => .error e
    | .ok _ => .ok (names.zip exprTypes)

/-- Embeds `AggregateNode::makeOutputType`: output size is grouping keys plus
aggregates plus one for grouping sets; names checked unique; children are
the key types, the aggregate types, then BIGINT for grouping sets. -/
def aggregateMakeOutputType (groupingKeyTypes : List LTy)
    (hasGroupingSets : Bool) (aggregateTypes : List LTy)
    (outputNames : List String) : Except String RowTy :=
  let size := groupingKeyTypes.length + aggregateTypes.length +
    (if hasGroupingSets then 1 else 0)
  if outputNames.length ≠ size then .error "Size mismatch"
  else
    match uniqueNameCheck outputNames with
    | .error e => .error e
    | .ok _ =>
      .ok (outputNames.zip (groupingKeyTypes ++ aggregateTypes ++
        (if hasGroupingSets then [LTy.bigintT] else [])))

/-- Embeds `JoinNode::makeOutputType`: the union (concatenation) of the left and
right output types, names checked unique. -/
def joinMakeOutputType (left right : RowTy) : Except String RowTy :=
  let t := left ++ right
  match uniqueNameCheck (t.map Prod.fst) with
  | .error e => .error e
  | .ok _ => .ok t

/-- The per-column loop of `UnnestNode::makeOutputType`: each unnested
column must be an array or a map; an array of rows is flattened to the row
children when requested; otherwise the children of the container type are
emitted under the given names. -/
def unnestColumns (flatten : Bool) :
    List (LTy × List String) → Except String RowTy
  | [] => .ok []
  | (ty, outNames) :: rest =>
    match ty with
    | .arrayT elem =>
      let cols : Except String RowTy :=
        match flatten, elem with
        | true, .rowT rfs =>
          if outNames.length = rfs.length then
            .ok (outNames.zip (rfs.map Prod.snd))
          else .error "Size mismatch"
        | _, _ =>
          if outNames.length = 1 then .ok (outNames.zip [elem])
          else .error "Size mismatch"
      match cols with
      | .error e => .error e
      | .ok cs =>
        match unnestColumns flatten rest with
        | .error e => .error e
        | .ok rs => .ok (cs ++ rs)
    | .mapT k v =>
      if outNames.length = 2 then
        match unnestColumns flatten rest with
        | .error e => .error e
        | .ok rs => .ok (outNames.zip [k, v] ++ rs)
      else .error "Size mismatch"
    | _ => .error "A column to unnest must be an ARRAY or a MAP"

/-- Embeds `UnnestNode::makeOutputType`: the input columns, then the unnested
columns, then the optional BIGINT ordinality column; names checked
unique. -/
def unnestMakeOutputType (inputType : RowTy) (unnestTypes : List LTy)
    (unnestedNames : List (List String)) (ordinalityName : Option String)
    (flatten : Bool) : Except String RowTy :=
  if unnestedNames.length ≠ unnestTypes.length then .error "Size mismatch"
  else if unnestTypes.length = 0 then
    .error "Unnest requires at least one ARRAY or MAP to expand"
  else
    match unnestColumns flatten (unnestTypes.zip unnestedNames) with
    | .error e => .error e
    | .ok cols =>
      let all := inputType ++ cols ++
        (match ordinalityName with
          | some n => [(n, LTy.bigintT)]
          | none => [])
      match uniqueNameCheck (all.map Prod.fst) with
      | .error e => .error e
      | .ok _ => .ok all

theorem except_forces_error {α : Type} (r : Except String α)
    (h : ∀ t, r ≠ .ok t) : ∃ e, r = .error e := by
  cases r with
  | error e => exact ⟨e, rfl⟩
  | ok t => exact absurd rfl (h t)

/-- C7.  Every logical plan node constructor (Values, Project, Aggregate,
Join, Unnest) produces an output row type with pairwise-distinct non-empty
column names, and fails with a user (InvalidInput) error whenever the
output would contain a duplicate or empty name. -/
theorem c7_unique_column_names :
    (∀ rowType rowTypes out, valuesNodeMake rowType rowTypes = .ok out →
      ValidNames (out.map Prod.fst)) ∧
    (∀ names exprTypes out, projectMakeOutputType names exprTypes = .ok out →
      ValidNames (out.map Prod.fst)) ∧
    (∀ g hgs a names out, aggregateMakeOutputType g hgs a names = .ok out →
      ValidNames (out.map Prod.fst)) ∧
    (∀ left right out, joinMakeOutputType left right = .ok out →
      ValidNames (out.map Prod.fst)) ∧
    (∀ it ut un ord fl out, unnestMakeOutputType it ut un ord fl = .ok out →
      ValidNames (out.map Prod.fst)) ∧
    (∀ rowType rowTypes, ¬ ValidNames (rowType.map Prod.fst) →
      ∃ e, valuesNodeMake rowType rowTypes = .error e) ∧
    (∀ names exprTypes, ¬ ValidNames names →
      ∃ e, projectMakeOutputType names exprTypes = .error e) ∧
    (∀ g hgs a names, ¬ ValidNames names →
      ∃ e, aggregateMakeOutputType g hgs a names = .error e) ∧
    (∀ left right, ¬ ValidNames ((left ++ right).map Prod.fst) →
      ∃ e, joinMakeOutputType left right = .error e) := by
  have hvalues : ∀ rowType rowTypes out,
      valuesNodeMake rowType rowTypes = .ok out →
      out = rowType ∧ ValidNames (out.map Prod.fst) := by
    intro rowType rowTypes out h
    unfold valuesNodeMake at h
    split at h
    · exact absurd h (by simp)
    · split at h
      · exact absurd h (by simp)
      · rename_i u heq
        cases u
        split at h
        · injection h with h2
          subst h2
          exact ⟨rfl, uniqueNameCheck_ok _ heq⟩
        · exact absurd h (by simp)
  have hproject : ∀ names exprTypes out,
      projectMakeOutputType names exprTypes = .ok out →
      out.map Prod.fst = names ∧ ValidNames (out.map Prod.fst) := by
    intro names exprTypes out h
    unfold projectMakeOutputType at h
    split at h
    · exact absurd h (by simp)
    · rename_i hlen
      split at h
      · exact absurd h (by simp)
      · rename_i u heq
        cases u
        injection h with h2
        subst h2
        have hmap : (names.zip exprTypes).map Prod.fst = names :=
          List.map_fst_zip names exprTypes (le_of_eq (not_ne_iff.mp hlen))
        rw [hmap]
        exact ⟨rfl, uniqueNameCheck_ok _ heq⟩
  have haggregate : ∀ g hgs a names out,
      aggregateMakeOutputType g hgs a names = .ok out →
      out.map Prod.fst = names ∧ ValidNames (out.map Prod.fst) := by
    intro g hgs a names out h
    simp only [aggregateMakeOutputType] at h
    split at h
    · split at h
      · exact absurd h (by simp)
      · rename_i hlen
        split at h
        · exact absurd h (by simp)
        · rename_i u heq
          cases u
          injection h with h2
          subst h2
          have hle : names.length ≤ (g ++ a ++ [LTy.bigintT]).length := by
            simp only [List.length_append, List.length_singleton]
            omega
          rw [List.map_fst_zip names _ hle]
          exact ⟨rfl, uniqueNameCheck_ok _ heq⟩
    · split at h
      · exact absurd h (by simp)
      · rename_i hlen
        split at h
        · exact absurd h (by simp)
        · rename_i u heq
          cases u
          injection h with h2
          subst h2
          have hle : names.length ≤ (g ++ a ++ ([] : List LTy)).length := by
            simp only [List.length_append, List.length_nil]
            omega
          rw [List.map_fst_zip names _ hle]
          exact ⟨rfl, uniqueNameCheck_ok _ heq⟩
  have hjoin : ∀ left right out, joinMakeOutputType left right = .ok out →
      out = left ++ right ∧ ValidNames (out.map Prod.fst) := by
    intro left right out h
    simp only [joinMakeOutputType] at h
    split at h
    · exact absurd h (by simp)
    · rename_i u heq
      cases u
      injection h with h2
      subst h2
      exact ⟨rfl, uniqueNameCheck_ok _ heq⟩
  have hunnest : ∀ it ut un ord fl out,
      unnestMakeOutputType it ut un ord fl = .ok out →
      ValidNames (out.map Prod.fst) := by
    intro it ut un ord fl out h
    simp only [unnestMakeOutputType] at h
    split at h
    · exact absurd h (by simp)
    · split at h
      · exact absurd h (by simp)
      · split at h
        · exact absurd h (by simp)
        · rename_i cols hu
          split at h
          · exact absurd h (by simp)
          · rename_i u heq
            cases u
            injection h with h2
            subst h2
            exact uniqueNameCheck_ok _ heq
  refine ⟨fun rt rts out h => (hvalues rt rts out h).2,
    fun n e out h => (hproject n e out h).2,
    fun g hgs a n out h => (haggregate g hgs a n out h).2,
    fun l r out h => (hjoin l r out h).2,
    hunnest, ?_, ?_, ?_, ?_⟩
  · intro rowType rowTypes hbad
    refine except_forces_error _ fun t ht => hbad ?_
    obtain ⟨rfl, hv⟩ := hvalues rowType rowTypes t ht
    exact hv
  · intro names exprTypes hbad
    refine except_forces_error _ fun t ht => hbad ?_
    obtain ⟨hm, hv⟩ := hproject names exprTypes t ht
    rwa [hm] at hv
  · intro g hgs a names hbad
    refine except_forces_error _ fun t ht => hbad ?_
    obtain ⟨hm, hv⟩ := haggregate g hgs a names t ht
    rwa [hm] at hv
  · intro left right hbad
    refine except_forces_error _ fun t ht => hbad ?_
    obtain ⟨rfl, hv⟩ := hjoin left right t ht
    exact hv

/-- C7, witness: a join of `(a BIGINT)` with `(b VARCHAR)` yields the
valid name list `[a, b]`, and a project with duplicate names `[c, c]`
fails. -/
theorem c7_unique_column_names_witness :
    ValidNames ([("a", LTy.bigintT), ("b", LTy.varcharT)].map Prod.fst) ∧
    (∃ e, projectMakeOutputType ["c", "c"] [LTy.bigintT, LTy.bigintT] =
      .error e) := by
  constructor
  · exact c7_unique_column_names.2.2.2.1 [("a", LTy.bigintT)]
      [("b", LTy.varcharT)] [("a", LTy.bigintT), ("b", LTy.varcharT)] rfl
  · exact c7_unique_column_names.2.2.2.2.2.2.1 ["c", "c"]
      [LTy.bigintT, LTy.bigintT] (by decide)

/-! ## PlanStateSaver (C8) -/

/-- Embeds `std::vector::resize(n)` with a default element: truncate to `n` when
not longer, pad with default-constructed elements when `n` exceeds the
current size. -/
def listResize {α : Type} (l : List α) (n : ℕ) (dflt : α) : List α :=
  if n ≤ l.length then l.take n else l ++ List.replicate (n - l.length) dflt

/-- The fields of `PlanState` in `Plan.h` (the reference to the owning
optimization aside).  Plan object sets are embedded as id lists, hash
build and plan references as ids, and the `downstreamColumns` cache as an
association list. -/
structure PlanState where
  placed : List ℕ
  columns : List ℕ
  targetColumns : List ℕ
  input : List ℕ
  cost : Cost
  builds : List ℕ
  hasCutoff : Bool
  plans : List ℕ
  downstreamPrecomputed : List (List ℕ × List ℕ)
  debugPlacedTables : List ℤ
  deriving Repr, DecidableEq

/-- The data captured by the `PlanStateSaver` constructor: copies of
`placed`, `columns` and `cost`, and the sizes of `builds` and
`debugPlacedTables`. -/
structure PlanStateSaver where
  placed : List ℕ
  columns : List ℕ
  cost : Cost
  numBuilds : ℕ
  numPlaced : ℕ
  deriving Repr, DecidableEq

/-- The `PlanStateSaver(PlanState&)` constructor in `Plan.h`. -/
def savePlanState (s : PlanState) : PlanStateSaver :=
  { placed := s.placed
    columns := s.columns
    cost := s.cost
    numBuilds := s.builds.length
    numPlaced := s.debugPlacedTables.length }

/-- The `PlanStateSaver` destructor in `Plan.h`: moves the saved `placed`,
`columns` and `cost` back into the state and resizes `builds` and
`debugPlacedTables` to their saved sizes.  `s` is the state at the moment
of destruction. -/
def restorePlanState (saver : PlanStateSaver) (s : PlanState) : PlanState :=
  { s with
    placed := saver.placed
    columns := saver.columns
    cost := saver.cost
    builds := listResize s.builds saver.numBuilds 0
    debugPlacedTables := listResize s.debugPlacedTables saver.numPlaced 0 }

/-- C8.  Destroying a `PlanStateSaver` constructed on state `s0` when the
state has evolved to `s1` restores `placed`, `columns` and `cost` to their
values at construction and truncates `builds` and `debugPlacedTables`
back to their sizes at construction (they only grow during exploration);
every other field, in particular the accumulated `plans` set, keeps its
value from `s1`. -/
theorem c8_planStateSaver_restores (s0 s1 : PlanState)
    (hb : s0.builds.length ≤ s1.builds.length)
    (hp : s0.debugPlacedTables.length ≤ s1.debugPlacedTables.length) :
    let r := restorePlanState (savePlanState s0) s1
    r.placed = s0.placed ∧
    r.columns = s0.columns ∧
    r.cost = s0.cost ∧
    r.builds = s1.builds.take s0.builds.length ∧
    r.debugPlacedTables = s1.debugPlacedTables.take s0.debugPlacedTables.length ∧
    r.plans = s1.plans ∧
    r.targetColumns = s1.targetColumns ∧
    r.input = s1.input ∧
    r.hasCutoff = s1.hasCutoff ∧
    r.downstreamPrecomputed = s1.downstreamPrecomputed := by
  refine ⟨rfl, rfl, rfl, ?_, ?_, rfl, rfl, rfl, rfl, rfl⟩
  · simp [restorePlanState, savePlanState, listResize, hb]
  · simp [restorePlanState, savePlanState, listResize, hp]

/-- C8, witness: a saver taken on a state with one build and no debug
entries, destroyed after a second build and a debug entry were pushed and
the cost, placed set and plan set changed. -/
theorem c8_planStateSaver_restores_witness :
    let s0 : PlanState :=
      ⟨[1], [10], [5], [], ⟨3, 0, 0, 0, 0, 0⟩, [100], true, [], [], []⟩
    let s1 : PlanState :=
      ⟨[1, 2], [10, 11], [5], [], ⟨8, 0, 0, 0, 0, 0⟩, [100, 200], true, [77],
        [], [2]⟩
    let r := restorePlanState (savePlanState s0) s1
    r.placed = s0.placed ∧
    r.columns = s0.columns ∧
    r.cost = s0.cost ∧
    r.builds = s1.builds.take s0.builds.length ∧
    r.debugPlacedTables = s1.debugPlacedTables.take s0.debugPlacedTables.length ∧
    r.plans = s1.plans ∧
    r.targetColumns = s1.targetColumns ∧
    r.input = s1.input ∧
    r.hasCutoff = s1.hasCutoff ∧
    r.downstreamPrecomputed = s1.downstreamPrecomputed := by
  exact c8_planStateSaver_restores _ _ (by decide) (by decide)

/-! ## Path steps and the logical plan getter (C10) -/

/-- Embeds `StepKind` of a path step. -/
inductive StepKind where
  | kField
  | kSubscript
  | kCardinality
  deriving Repr, DecidableEq

/-- A path step: kind, optional field name (a possibly null interned
`Name` in the source), integer id (field index or subscript key), and the
wildcard subscript flag. -/
structure Step where
  kind : StepKind
  field : Option String := none
  id : ℤ := 0
  allFields : Bool := false
  deriving Repr, DecidableEq

/-- Variant values, as far as the getter construction and the subfield
marking inspect them.  `vVarchar none` is the varchar made of a null
`Name` pointer (`makeKey(VARCHAR(), step.field)` with absent field). -/
inductive VVal where
  | vVarchar (s : Option String)
  | vInt64 (n : ℤ)
  | vInt32 (n : ℤ)
  | vInt16 (n : ℤ)
  | vInt8 (n : ℤ)
  deriving Repr, DecidableEq

/-- Logical plan expressions, as far as `stepToLogicalPlanGetter` builds
them: constants, calls, the Dereference special form, and input
references. -/
inductive LPExpr where
  | constant (ty : LTy) (v : VVal)
  | callE (ty : LTy) (name : String) (args : List LPExpr)
  | dereference (ty : LTy) (arg : LPExpr) (key : LPExpr)
  | inputRef (ty : LTy) (name : String)

/-- The type of a logical plan expression. -/
def LPExpr.ty : LPExpr → LTy
  | .constant t _ => t
  | .callE t _ _ => t
  | .dereference t _ _ => t
  | .inputRef t _ => t

/-- Embeds `makeKey(VARCHAR(), f)` for a possibly null `Name`. -/
def makeVarcharKey (f : Option String) : LPExpr :=
  .constant .varcharT (.vVarchar f)

/-- Embeds `RowType::findChild` by name. -/
def rowFindChild : LTy → String → Option LTy
  | .rowT fields, name =>
    (fields.find? fun p => p.1 = name).map Prod.snd
  | _, _ => none

/-- Embeds `Type::childAt` by index on a row type. -/
def rowChildAt : LTy → ℤ → Option LTy
  | .rowT fields, i =>
    if 0 ≤ i then (fields.get? i.toNat).map Prod.snd else none
  | _, _ => none

/-- The local `key` that the `StepKind::kField` case of
`ToGraph::stepToLogicalPlanGetter` computes: the varchar field name when
present, otherwise the INTEGER index.  The source computes this value and
then does not use it. -/
def stepFieldLocalKey (step : Step) : LPExpr :=
  match step.field with
  | some f => makeVarcharKey (some f)
  | none => .constant .integerT (.vInt32 step.id)

/-- Embeds `ToGraph::stepToLogicalPlanGetter` in `Subfields.cpp` (lines 517-577).
For a Field step the result type comes from `findChild`/`childAt`, but the
Dereference key is always `makeKey(VARCHAR(), step.field)` (the computed
integer `key` local is discarded).  For a Subscript step over an array the
key is the INTEGER id; over a map the key is typed after the map key type.
A Cardinality step is `VELOX_NYI` and failed lookups are `VELOX_FAIL`,
both embedded as `none`. -/
def stepToLogicalPlanGetter (step : Step) (arg : LPExpr) : Option LPExpr :=
  let argType := arg.ty
  match step.kind with
  | .kField =>
    let child : Option LTy :=
      match step.field with
      | some f => rowFindChild argType f
      | none => rowChildAt argType step.id
    match child with
    | some childTy =>
      some (.dereference childTy arg (makeVarcharKey step.field))
    | none => none
  | .kSubscript =>
    match argType with
    | .arrayT elem =>
      some (.callE elem "subscript"
        [arg, .constant .integerT (.vInt32 step.id)])
    | .mapT keyTy valueTy =>
      let key : Option LPExpr :=
        match keyTy with
        | .varcharT => some (makeVarcharKey step.field)
        | .bigintT => some (.constant .bigintT (.vInt64 step.id))
        | .integerT => some (.constant .integerT (.vInt32 step.id))
        | .smallintT => some (.constant .smallintT (.vInt16 step.id))
        | .tinyintT => some (.constant .tinyintT (.vInt8 step.id))
        | _ => none
      match key with
      | some k => some (.callE valueTy "subscript" [arg, k])
      | none => none
    | _ => none
  | .kCardinality => none

/-- C10.  For a Field step with no field name (index only), the getter
returned by `stepToLogicalPlanGetter` carries the correct child type but
its Dereference key is the varchar constant made from the null field name,
not the INTEGER index key that the source computes into its unused local
`key`; so the key does not identify the struct child the step denotes,
refuting the claim for nameless Field steps (the named case is correct:
the emitted key then coincides with the computed one). -/
theorem c10_getter_key_bug :
    (stepToLogicalPlanGetter { kind := .kField, field := none, id := 1 }
        (LPExpr.inputRef (.rowT [("a", .bigintT), ("b", .varcharT)]) "x") =
      some (.dereference .varcharT
        (LPExpr.inputRef (.rowT [("a", .bigintT), ("b", .varcharT)]) "x")
        (makeVarcharKey none))) ∧
    stepFieldLocalKey { kind := .kField, field := none, id := 1 } =
      .constant .integerT (.vInt32 1) ∧
    makeVarcharKey none ≠ .constant .integerT (.vInt32 1) ∧
    (stepToLogicalPlanGetter { kind := .kField, field := some "b", id := 1 }
        (LPExpr.inputRef (.rowT [("a", .bigintT), ("b", .varcharT)]) "x") =
      some (.dereference .varcharT
        (LPExpr.inputRef (.rowT [("a", .bigintT), ("b", .varcharT)]) "x")
        (makeVarcharKey (some "b")))) := by
  refine ⟨rfl, rfl, ?_, rfl⟩
  simp [makeVarcharKey]

/-! ## Subfield access marking (C9)

The marking of `Subfields.cpp` walks the logical plan and its expressions,
recording accessed paths per (plan node, output ordinal) in two maps,
`controlSubfields_` and `payloadSubfields_`.  Arena pointers are embedded
as integer ids resolved through an environment; paths are interned by
value, so a path id is the (reversed, as `toPath(steps, true)` does)
step list itself; the C++ maps use `operator[]`, whose on-demand entry
creation is invisible in the functional map embedding; recursion over the
plan uses explicit fuel; constant folding of composite constant subscript
indexes (`tryFoldConstant` falling back to expression translation) is not
modelled: only literal indexes fold, others take the wildcard branch. -/

/-- The interned path of a step vector: `stepsToPath` calls
`toPath(steps, true)`, which reverses the accumulated steps. -/
def pathOf (steps : List Step) : List Step := steps.reverse

/-- Embeds `ResultAccess::kSelf`, the arg ordinal recording a path over a whole
call result. -/
def kSelf : ℤ := -1

/-- One of the two subfield maps (`PlanSubfields`): paths per plan node
and output ordinal, and paths per function call and argument ordinal. -/
structure PlanSubfields where
  nodeFields : ℕ → ℤ → List (List Step)
  argFields : ℕ → ℤ → List (List Step)

def PlanSubfields.addNodePath (ps : PlanSubfields) (node : ℕ) (ordinal : ℤ)
    (path : List Step) : PlanSubfields :=
  { ps with
    nodeFields := fun n o =>
      if n = node ∧ o = ordinal then ps.nodeFields n o ++ [path]
      else ps.nodeFields n o }

def PlanSubfields.addArgPath (ps : PlanSubfields) (expr : ℕ) (ordinal : ℤ)
    (path : List Step) : PlanSubfields :=
  { ps with
    argFields := fun n o =>
      if n = expr ∧ o = ordinal then ps.argFields n o ++ [path]
      else ps.argFields n o }

/-- The pair `controlSubfields_`, `payloadSubfields_` of `ToGraph`. -/
structure SubfieldState where
  control : PlanSubfields
  payload : PlanSubfields

/-- Embeds `isControl ? &controlSubfields_ : &payloadSubfields_`. -/
def subfieldsFor (isControl : Bool) (st : SubfieldState) : PlanSubfields :=
  if isControl then st.control else st.payload

def setSubfields (isControl : Bool) (st : SubfieldState)
    (ps : PlanSubfields) : SubfieldState :=
  if isControl then { st with control := ps } else { st with payload := ps }

/-- Constant values as far as the marking inspects them
(`maybeIntegerLiteral`, varchar subscripts). -/
inductive CVal where
  | cvStr (s : String)
  | cvInt (n : ℤ)
  | cvOther
  deriving Repr, DecidableEq

/-- Logical plan expressions in the arena.  Every node carries the child
names of its type when it is a row (`type()->asRow()` accesses), children
are arena ids. -/
inductive ExprNode where
  | inputRefE (rowNames : List String) (name : String)
  | constE (rowNames : List String) (value : CVal)
  | dereferenceE (rowNames : List String) (input : ℕ) (key : ℕ)
  | callE (rowNames : List String) (name : String) (inputs : List ℕ)
  | lambdaE (signature : List String) (body : ℕ)
  | specialFormE (rowNames : List String) (inputs : List ℕ)
  deriving Repr, DecidableEq

/-- The row child names of the type of an expression (the lambda case
yields its signature row). -/
def ExprNode.rowNames : ExprNode → List String
  | .inputRefE r _ => r
  | .constE r _ => r
  | .dereferenceE r _ _ => r
  | .callE r _ _ => r
  | .lambdaE s _ => s
  | .specialFormE r _ => r

/-- An `AggregateExpr`: inputs, optional filter, sorting expressions. -/
structure AggExprData where
  inputs : List ℕ
  filter : Option ℕ
  ordering : List ℕ
  deriving Repr, DecidableEq

/-- Logical plan nodes, by the cases `markFieldAccessed` distinguishes:
Project, Aggregate, Set, and the generic case resolving an output name
through the inputs (covering Filter, Join, Sort, Limit, scans and
leaves). -/
inductive NodeData where
  | projectN (outputNames : List String) (exprs : List ℕ) (input : ℕ)
  | aggregateN (outputNames : List String) (groupingKeys : List ℕ)
      (aggregates : List AggExprData) (input : ℕ)
  | setN (outputNames : List String) (inputs : List ℕ)
  | genericN (outputNames : List String) (inputs : List ℕ)
  deriving Repr, DecidableEq

/-- The output row type names of a node. -/
def NodeData.outputNames : NodeData → List String
  | .projectN n _ _ => n
  | .aggregateN n _ _ _ => n
  | .setN n _ => n
  | .genericN n _ => n

/-- Function metadata, as consumed by the marking: whether subfields are
processed, the `subfieldArg`, the `fieldIndexForArg`/`argOrdinal` tables,
per-argument lambda info (the captured arg ordinals), and the optional
`valuePathToArgPath` transform mapping a value path to an argument path
and index. -/
structure FuncMetadata where
  processSubfields : Bool
  subfieldArg : Option ℕ
  fieldIndexForArg : List ℤ
  argOrdinal : List ℕ
  lambdaInfos : List (ℕ × List ℕ)
  valuePathToArgPath : Option (List Step → List Step × ℕ)

/-- The arenas: expressions, plan nodes and the function registry. -/
structure MarkEnv where
  expr : ℕ → Option ExprNode
  node : ℕ → Option NodeData
  metadata : String → Option FuncMetadata

/-- Embeds `LogicalContextSource`: either a plan node or the lambda argument of
an enclosing higher order call. -/
inductive CtxSource where
  | nodeSrc (id : ℕ)
  | lambdaSrc (callId : ℕ) (lambdaOrdinal : ℕ)
  deriving Repr, DecidableEq

/-- Embeds `MarkFieldsAccessedContext`: parallel row types and sources. -/
abbrev MarkCtx := List (List String × CtxSource)

/-- Indexing with a C++ signed ordinal. -/
def idxGet {α : Type} (l : List α) (i : ℤ) : Option α :=
  if 0 ≤ i then l.get? i.toNat else none

/-- Embeds `metadata->lambdaInfo(i)`: the arg-ordinal table of the lambda at
argument position `i`, when there is one. -/
def lookupAssoc (l : List (ℕ × List ℕ)) (k : ℕ) : Option (List ℕ) :=
  (l.find? fun p => p.1 = k).map Prod.snd

/-- Embeds `ToGraph::stepToArg`: find the step id in `fieldIndexForArg` and
return the matching `argOrdinal`. -/
def stepToArg (step : Step) (md : FuncMetadata) : Option ℕ :=
  match List.indexOf? step.id md.fieldIndexForArg with
  | some j => md.argOrdinal.get? j
  | none => none

mutual

/-- Embeds `ToGraph::markFieldAccessed(source, ordinal, steps, isControl, ctx)`
in `Subfields.cpp` (lines 126-195), and the Project, Aggregate and Set
overloads it dispatches to.  For a plan node source it interns the path,
returns at once if the path is already recorded for (node, ordinal), else
records it and recurses into the defining expressions or inputs. -/
def markFieldAccessed (env : MarkEnv) :
    ℕ → CtxSource → ℤ → List Step → Bool → MarkCtx → SubfieldState →
    Option SubfieldState
  | 0, _, _, _, _, _, _ => none
  | fuel + 1, .lambdaSrc callId lambdaOrdinal, ordinal, steps, isControl,
      context, st =>
    (match env.expr callId with
     | some (.callE _ name inputs) =>
       (match env.metadata name with
        | some md =>
          (match lookupAssoc md.lambdaInfos lambdaOrdinal with
           | some argOrds =>
             (match idxGet argOrds ordinal with
              | some nth =>
                (match inputs.get? nth with
                 | some inputId =>
                   markSubfields env fuel inputId steps isControl
                     (context.drop 1) st
                 | none => none)
              | none => none)
           | none => none)
        | none => none)
     | _ => none)
  | fuel + 1, .nodeSrc nid, ordinal, steps, isControl, context, st =>
    let fields := subfieldsFor isControl st
    let path := pathOf steps
    if path ∈ fields.nodeFields nid ordinal then some st
    else
      let st1 := setSubfields isControl st (fields.addNodePath nid ordinal path)
      match env.node nid with
      | some (.projectN _ exprs input) =>
        (match idxGet exprs ordinal, env.node input with
         | some eid, some inputNode =>
           markSubfields env fuel eid steps isControl
             [(inputNode.outputNames, .nodeSrc input)] st1
         | _, _ => none)
      | some (.aggregateN _ keys aggs input) =>
        (match env.node input with
         | some inputNode =>
           let ctx : MarkCtx := [(inputNode.outputNames, .nodeSrc input)]
           (match (if 0 ≤ ordinal then some ordinal.toNat else none) with
            | some ord =>
              if ord < keys.length then
                (match keys.get? ord with
                 | some k => markSubfields env fuel k [] isControl ctx st1
                 | none => none)
              else
                (match aggs.get? (ord - keys.length) with
                 | some agg =>
                   markExprList env fuel
                     (agg.inputs ++
                       (match agg.filter with
                         | some f => [f]
                         | none => []) ++ agg.ordering)
                     isControl ctx st1
                 | none => none)
            | none => none)
         | none => none)
      | some (.setN _ inputs) =>
        markSetInputs env fuel inputs ordinal steps isControl st1
      | some (.genericN names inputs) =>
        if inputs.isEmpty then some st1
        else
          (match idxGet names ordinal with
           | some fieldName =>
             markGenericInputs env fuel inputs fieldName steps isControl
               context st1
           | none => none)
      | none => none

/-- Embeds `ToGraph::markSubfields(expr, steps, isControl, context)` in
`Subfields.cpp` (lines 244-426). -/
def markSubfields (env : MarkEnv) :
    ℕ → ℕ → List Step → Bool → MarkCtx → SubfieldState →
    Option SubfieldState
  | 0, _, _, _, _, _ => none
  | fuel + 1, eid, steps, isControl, context, st =>
    match env.expr eid with
    | some (.inputRefE _ name) =>
      markInputRef env fuel name steps isControl context context st
    | some (.dereferenceE _ input keyId) =>
      (match env.expr keyId, env.expr input with
       | some (.constE _ v), some inputNode =>
         let rowNames := inputNode.rowNames
         (match v with
          | .cvInt n =>
            (match idxGet rowNames n with
             | some nm =>
               markSubfields env fuel input
                 (steps ++ [{ kind := .kField, field := some nm, id := n }])
                 isControl context st
             | none => none)
          | .cvStr s =>
            (match List.indexOf? s rowNames with
             | some idx =>
               markSubfields env fuel input
                 (steps ++
                   [{ kind := .kField, field := some s, id := (idx : ℤ) }])
                 isControl context st
             | none => none)
          | .cvOther => none)
       | _, _ => none)
    | some (.callE _ name inputs) =>
      if name = "cardinality" then
        (match inputs.get? 0 with
         | some a0 =>
           markSubfields env fuel a0 (steps ++ [{ kind := .kCardinality }])
             isControl context st
         | none => none)
      else if name = "subscript" ∨ name = "element_at" then
        (match inputs.get? 0, inputs.get? 1 with
         | some a0, some a1 =>
           (match
              (match env.expr a1 with
                | some (.constE _ v) => some v
                | _ => none) with
            | none =>
              (match markSubfields env fuel a1 [] isControl context st with
               | some st2 =>
                 markSubfields env fuel a0
                   (steps ++ [{ kind := .kSubscript, allFields := true }])
                   isControl context st2
               | none => none)
            | some (.cvStr s) =>
              markSubfields env fuel a0
                (steps ++ [{ kind := .kSubscript, field := some s }])
                isControl context st
            | some (.cvInt n) =>
              markSubfields env fuel a0
                (steps ++ [{ kind := .kSubscript, id := n }])
                isControl context st
            | some .cvOther => none)
         | _, _ => none)
      else
        (match env.metadata name with
         | some md =>
           if md.processSubfields then
             let fields := subfieldsFor isControl st
             let path := pathOf steps
             if path ∈ fields.argFields eid kSelf then some st
             else
               let st1 := setSubfields isControl st
                 (fields.addArgPath eid kSelf path)
               match md.valuePathToArgPath, steps with
               | some f, s0 :: srest =>
                 let pair := f (s0 :: srest)
                 (match inputs.get? pair.2 with
                  | some argId =>
                    markSubfields env fuel argId pair.1 isControl context st1
                  | none => none)
               | _, _ =>
                 markCallArgs env fuel eid md inputs 0 steps isControl
                   context st1
           else markExprList env fuel inputs isControl context st
         | none => markExprList env fuel inputs isControl context st)
    | some (.constE _ _) => some st
    | some (.specialFormE _ inputs) =>
      markExprList env fuel inputs isControl context st
    | some (.lambdaE _ _) => none
    | none => none

/-- The input reference loop of `markSubfields`: the first context entry
whose row type has a child of the name resolves the reference; the full
context is passed on. -/
def markInputRef (env : MarkEnv) :
    ℕ → String → List Step → Bool → MarkCtx → MarkCtx → SubfieldState →
    Option SubfieldState
  | 0, _, _, _, _, _, _ => none
  | _ + 1, _, _, _, [], _, _ => none
  | fuel + 1, name, steps, isControl, (rowNames, src) :: rest, full, st =>
    (match List.indexOf? name rowNames with
     | some idx =>
       markFieldAccessed env fuel src (idx : ℤ) steps isControl full st
     | none => markInputRef env fuel name steps isControl rest full st)

/-- Marking of a list of expressions, each with a fresh empty step
vector (the default-call, special-form and aggregate-part loops). -/
def markExprList (env : MarkEnv) :
    ℕ → List ℕ → Bool → MarkCtx → SubfieldState → Option SubfieldState
  | 0, _, _, _, _ => none
  | _ + 1, [], _, _, st => some st
  | fuel + 1, e :: rest, isControl, context, st =>
    (match markSubfields env fuel e [] isControl context st with
     | some st2 => markExprList env fuel rest isControl context st2
     | none => none)

/-- The Set overload loop: mark the same ordinal and steps in every
input. -/
def markSetInputs (env : MarkEnv) :
    ℕ → List ℕ → ℤ → List Step → Bool → SubfieldState →
    Option SubfieldState
  | 0, _, _, _, _, _ => none
  | _ + 1, [], _, _, _, st => some st
  | fuel + 1, i :: rest, ordinal, steps, isControl, st =>
    (match env.node i with
     | some nd =>
       (match markFieldAccessed env fuel (.nodeSrc i) ordinal steps isControl
          [(nd.outputNames, .nodeSrc i)] st with
        | some st2 => markSetInputs env fuel rest ordinal steps isControl st2
        | none => none)
     | none => none)

/-- The generic-node loop: find the first input providing the field name
and recurse into it (the source must exist, else `VELOX_FAIL`). -/
def markGenericInputs (env : MarkEnv) :
    ℕ → List ℕ → String → List Step → Bool → MarkCtx → SubfieldState →
    Option SubfieldState
  | 0, _, _, _, _, _, _ => none
  | _ + 1, [], _, _, _, _, _ => none
  | fuel + 1, i :: rest, fieldName, steps, isControl, context, st =>
    (match env.node i with
     | some nd =>
       (match List.indexOf? fieldName nd.outputNames with
        | some idx =>
          markFieldAccessed env fuel (.nodeSrc i) (idx : ℤ) steps isControl
            context st
        | none =>
          markGenericInputs env fuel rest fieldName steps isControl context st)
     | none =>
       markGenericInputs env fuel rest fieldName steps isControl context st)

/-- The argument loop of the non-default-metadata call case of
`markSubfields` (lines 349-408): `subfieldArg` passes the path through;
with a trailing Field step, the matching `argOrdinal` argument receives
the popped path and other `fieldIndexForArg` arguments are skipped;
lambdas push their capture row onto the context; other arguments are
marked with an empty path. -/
def markCallArgs (env : MarkEnv) :
    ℕ → ℕ → FuncMetadata → List ℕ → ℕ → List Step → Bool → MarkCtx →
    SubfieldState → Option SubfieldState
  | 0, _, _, _, _, _, _, _, _ => none
  | fuel + 1, callId, md, inputs, i, steps, isControl, context, st =>
    match inputs.get? i with
    | none => some st
    | some argId =>
      if md.subfieldArg = some i then
        (match markSubfields env fuel argId steps isControl context st with
         | some st2 =>
           markCallArgs env fuel callId md inputs (i + 1) steps isControl
             context st2
         | none => none)
      else
        match steps.getLast? with
        | some lastStep =>
          if lastStep.kind = .kField then
            if stepToArg lastStep md = some i then
              let st1 := setSubfields isControl st
                ((subfieldsFor isControl st).addArgPath callId (i : ℤ)
                  (pathOf steps))
              (match markSubfields env fuel argId steps.dropLast isControl
                 context st1 with
               | some st2 =>
                 markCallArgs env fuel callId md inputs (i + 1) steps
                   isControl context st2
               | none => none)
            else if (i : ℤ) ∈ md.fieldIndexForArg then
              markCallArgs env fuel callId md inputs (i + 1) steps isControl
                context st
            else
              markCallArgTail env fuel callId md inputs i argId steps
                isControl context st
          else
            markCallArgTail env fuel callId md inputs i argId steps isControl
              context st
        | none =>
          markCallArgTail env fuel callId md inputs i argId steps isControl
            context st

/-- The tail of the argument loop body: the lambda case (pushing the
capture row and the lambda source onto the context) and the default
empty-path marking, then the next iteration. -/
def markCallArgTail (env : MarkEnv) :
    ℕ → ℕ → FuncMetadata → List ℕ → ℕ → ℕ → List Step → Bool → MarkCtx →
    SubfieldState → Option SubfieldState
  | 0, _, _, _, _, _, _, _, _, _ => none
  | fuel + 1, callId, md, inputs, i, argId, steps, isControl, context, st =>
    match lookupAssoc md.lambdaInfos i with
    | some _ =>
      (match env.expr argId with
       | some (.lambdaE sig body) =>
         (match markSubfields env fuel body [] isControl
            ((sig, .lambdaSrc callId i) :: context) st with
          | some st2 =>
            markCallArgs env fuel callId md inputs (i + 1) steps isControl
              context st2
          | none => none)
       | _ => none)
    | none =>
      (match markSubfields env fuel argId [] isControl context st with
       | some st2 =>
         markCallArgs env fuel callId md inputs (i + 1) steps isControl
           context st2
       | none => none)

end

/-- C9.  Subfield access marking is idempotent: for every plan node,
output ordinal, step vector, control or payload flag, context and marking
state, if the interned path is already recorded for (node, ordinal) in the
subfield map selected by the flag, then `markFieldAccessed` returns
immediately and both `controlSubfields_` and `payloadSubfields_` are
unchanged (the result is exactly the input state). -/
theorem c9_mark_idempotent (env : MarkEnv) (fuel : ℕ) (nid : ℕ)
    (ordinal : ℤ) (steps : List Step) (isControl : Bool) (context : MarkCtx)
    (st : SubfieldState)
    (h : pathOf steps ∈ (subfieldsFor isControl st).nodeFields nid ordinal) :
    markFieldAccessed env (fuel + 1) (.nodeSrc nid) ordinal steps isControl
      context st = some st := by
  rw [markFieldAccessed]
  simp only []
  rw [if_pos h]

/-- Environment of the C9 witness: one leaf node with a single output
column. -/
def c9Env : MarkEnv :=
  ⟨fun _ => none,
    fun n => if n = 0 then some (.genericN ["c"] []) else none,
    fun _ => none⟩

/-- State of the C9 witness: the empty path is already recorded for
(node 0, ordinal 0) in the control map. -/
def c9State : SubfieldState :=
  ⟨⟨fun n o => if n = 0 ∧ o = 0 then [[]] else [], fun _ _ => []⟩,
    ⟨fun _ _ => [], fun _ _ => []⟩⟩

/-- C9, witness: re-marking the recorded (node 0, ordinal 0, empty path)
leaves the state untouched. -/
theorem c9_mark_idempotent_witness :
    markFieldAccessed c9Env 1 (.nodeSrc 0) 0 [] true [] c9State =
      some c9State :=
  c9_mark_idempotent c9Env 0 0 0 [] true [] c9State (by decide)

end Verax
